import Mathlib

/-!
Verification of the pagination and export engine of the Document-Pagination
repository (src/hooks/usePagination.ts, src/components/DocumentEditor.tsx,
src/components/PageBreakVisualizer.tsx).

JavaScript numbers are modelled as exact rationals (ℚ): every quantity the
engine manipulates (DOM `scrollHeight`, canvas dimensions, pixel offsets) is
an integer or a small exact decimal in the source, so exact arithmetic is
faithful.  `Math.ceil` becomes `Int.ceil`, `Math.max` becomes `max`,
`Math.min` becomes `min`.
-/

namespace DocPagination

/-! ### PageGeometry — constants of src/hooks/usePagination.ts, lines 8-20 -/

def LETTER_WIDTH_INCHES : ℚ := 8.5
def LETTER_HEIGHT_INCHES : ℚ := 11
def MARGIN_INCHES : ℚ := 1
def DPI : ℚ := 96

def LETTER_WIDTH_PX : ℚ := LETTER_WIDTH_INCHES * DPI
def LETTER_HEIGHT_PX : ℚ := LETTER_HEIGHT_INCHES * DPI
def MARGIN_PX : ℚ := MARGIN_INCHES * DPI

def CONTENT_WIDTH_PX : ℚ := LETTER_WIDTH_PX - 2 * MARGIN_PX
def CONTENT_HEIGHT_PX : ℚ := LETTER_HEIGHT_PX - 2 * MARGIN_PX

lemma CONTENT_WIDTH_PX_eq : CONTENT_WIDTH_PX = 624 := by
  norm_num [CONTENT_WIDTH_PX, LETTER_WIDTH_PX, MARGIN_PX, LETTER_WIDTH_INCHES,
    MARGIN_INCHES, DPI]

lemma CONTENT_HEIGHT_PX_eq : CONTENT_HEIGHT_PX = 864 := by
  norm_num [CONTENT_HEIGHT_PX, LETTER_HEIGHT_PX, MARGIN_PX,
    LETTER_HEIGHT_INCHES, MARGIN_INCHES, DPI]

/-! ### Data model -/

/-- `PageBreak` of usePagination.ts, lines 3-6. -/
structure PageBreak where
  pageNumber : ℕ
  heightFromTop : ℚ
deriving DecidableEq

/-- The pair of React states `pageBreaks` / `totalPages` set by
`calculatePageBreaks` (usePagination.ts, lines 23-24, 51-52). -/
structure PaginationState where
  pageBreaks : List PageBreak
  totalPages : ℤ
deriving DecidableEq

/-! ### PaginationEngine — `calculatePageBreaks`, usePagination.ts lines 28-53 -/

/-- The `while (nextPageTop < contentHeight)` loop of usePagination.ts,
lines 36-46: starting from `pageNum` with `nextPageTop = pageNum * P`,
push `{pageNumber: pageNum, heightFromTop: pageNum * P}` and advance while
`pageNum * P < H`.  The loop is given explicit fuel; with `P > 0` any fuel
that dominates every `pageNum` satisfying the guard reproduces the source
loop exactly (the guard fails before the fuel runs out), which
`mem_breaksLoop` makes precise. -/
def breaksLoop (H P : ℚ) : ℕ → ℕ → List PageBreak
  | 0, _ => []
  | fuel + 1, pageNum =>
    if (pageNum : ℚ) * P < H then
      { pageNumber := pageNum, heightFromTop := (pageNum : ℚ) * P } ::
        breaksLoop H P fuel (pageNum + 1)
    else []

/-- `calculatePageBreaks` (usePagination.ts lines 28-53) as a pure function of
the measured content height `H` (`contentRef.current.scrollHeight`) and the
page content height `P` (`CONTENT_HEIGHT_PX` in the source; kept as a
parameter so the contract can be stated for any `P > 0`):
`breaks` from the `while` loop starting at `pageNum = 1`, and
`calculatedPages = Math.max(1, Math.ceil(contentHeight / CONTENT_HEIGHT_PX))`
(line 49). -/
def calculatePageBreaks (H P : ℚ) : PaginationState :=
  { pageBreaks := breaksLoop H P (max 1 ⌈H / P⌉).toNat 1
    totalPages := max 1 ⌈H / P⌉ }

/-- One recomputation step including the guard of usePagination.ts line 29:
`if (!contentRef.current) return;` — when the content element cannot be
measured the function returns without touching the state, otherwise the
state is replaced by `calculatePageBreaks` of the measured height. -/
def calcStep (P : ℚ) (prev : PaginationState) (measurement : Option ℚ) :
    PaginationState :=
  match measurement with
  | none => prev
  | some H => calculatePageBreaks H P

/-! ### Characterization of the while loop -/

/-- Membership in the emitted break list: with positive page height and
enough fuel, the loop starting at `start` emits exactly the breaks
`{pageNumber := k, heightFromTop := k * P}` for `k ≥ start` with
`k * P < H`. -/
lemma mem_breaksLoop {H P : ℚ} (hP : 0 < P) :
    ∀ (fuel start : ℕ),
      (∀ k : ℕ, (k : ℚ) * P < H → k < start + fuel) →
      ∀ b : PageBreak,
        (b ∈ breaksLoop H P fuel start ↔
          start ≤ b.pageNumber ∧ (b.pageNumber : ℚ) * P < H ∧
            b.heightFromTop = (b.pageNumber : ℚ) * P) := by
  intro fuel
  induction fuel with
  | zero =>
    intro start hfuel b
    simp only [breaksLoop, List.not_mem_nil, false_iff]
    rintro ⟨hle, hlt, -⟩
    exact absurd (hfuel _ hlt) (by omega)
  | succ fuel ih =>
    intro start hfuel b
    by_cases hguard : (start : ℚ) * P < H
    · simp only [breaksLoop, if_pos hguard, List.mem_cons]
      rw [ih (start + 1) (fun k hk => by have := hfuel k hk; omega) b]
      constructor
      · rintro (rfl | ⟨h1, h2, h3⟩)
        · exact ⟨le_refl _, hguard, rfl⟩
        · exact ⟨by omega, h2, h3⟩
      · rintro ⟨h1, h2, h3⟩
        rcases Nat.eq_or_lt_of_le h1 with heq | hlt
        · left
          cases b
          simp_all
        · right
          exact ⟨by omega, h2, h3⟩
    · simp only [breaksLoop, if_neg hguard, List.not_mem_nil, false_iff]
      rintro ⟨hle, hlt, -⟩
      apply hguard
      calc (start : ℚ) * P ≤ (b.pageNumber : ℚ) * P := by
            apply mul_le_mul_of_nonneg_right _ hP.le
            exact_mod_cast hle
        _ < H := hlt

/-- The head of the loop's output, when it exists, is the break for `start`. -/
lemma head_breaksLoop {H P : ℚ} (fuel start : ℕ) {b : PageBreak}
    (h : (breaksLoop H P fuel start).head? = some b) :
    b = { pageNumber := start, heightFromTop := (start : ℚ) * P } := by
  cases fuel with
  | zero => simp [breaksLoop] at h
  | succ fuel =>
    by_cases hguard : (start : ℚ) * P < H
    · simp only [breaksLoop, if_pos hguard, List.head?_cons,
        Option.some.injEq] at h
      exact h.symm
    · simp [breaksLoop, if_neg hguard] at h

/-- The loop's output is strictly ascending in `heightFromTop`. -/
lemma chain_breaksLoop {H P : ℚ} (hP : 0 < P) :
    ∀ (fuel start : ℕ),
      List.Chain' (fun a b : PageBreak => a.heightFromTop < b.heightFromTop)
        (breaksLoop H P fuel start) := by
  intro fuel
  induction fuel with
  | zero => intro start; simp [breaksLoop]
  | succ fuel ih =>
    intro start
    by_cases hguard : (start : ℚ) * P < H
    · simp only [breaksLoop, if_pos hguard]
      rw [List.chain'_cons']
      refine ⟨?_, ih (start + 1)⟩
      intro y hy
      have hy' := head_breaksLoop (H := H) (P := P) fuel (start + 1) hy
      subst hy'
      simp only
      have : (start : ℚ) < ((start : ℕ) + 1 : ℕ) := by exact_mod_cast Nat.lt_succ_self start
      calc (start : ℚ) * P < (((start + 1 : ℕ)) : ℚ) * P := by
            apply mul_lt_mul_of_pos_right _ hP
            exact_mod_cast Nat.lt_succ_self start
        _ = _ := rfl
    · simp [breaksLoop, if_neg hguard]

/-- The fuel chosen in `calculatePageBreaks` dominates every page number the
loop guard can accept. -/
lemma fuel_sufficient {H P : ℚ} (hP : 0 < P) :
    ∀ k : ℕ, (k : ℚ) * P < H → k < 1 + (max 1 ⌈H / P⌉).toNat := by
  intro k hk
  have hdiv : (k : ℚ) < H / P := (lt_div_iff₀ hP).mpr hk
  have hceil : (k : ℚ) < (⌈H / P⌉ : ℚ) := lt_of_lt_of_le hdiv (Int.le_ceil _)
  have hZ : (k : ℤ) < ⌈H / P⌉ := by exact_mod_cast hceil
  have : (k : ℤ) < max 1 ⌈H / P⌉ := lt_of_lt_of_le hZ (le_max_right _ _)
  have hk' : k < (max 1 ⌈H / P⌉).toNat := Int.lt_toNat.mpr this
  omega

/-- Membership characterization of the breaks actually produced by
`calculatePageBreaks`. -/
lemma mem_calculatePageBreaks {H P : ℚ} (hP : 0 < P) (b : PageBreak) :
    b ∈ (calculatePageBreaks H P).pageBreaks ↔
      1 ≤ b.pageNumber ∧ (b.pageNumber : ℚ) * P < H ∧
        b.heightFromTop = (b.pageNumber : ℚ) * P := by
  exact mem_breaksLoop hP _ 1 (fuel_sufficient hP) b

/-- Nonpositive measured height produces the minimum state: one page and no
breaks. -/
lemma calculatePageBreaks_of_nonpos {H P : ℚ} (hP : 0 < P) (hH : H ≤ 0) :
    calculatePageBreaks H P = { pageBreaks := [], totalPages := 1 } := by
  have hne : (calculatePageBreaks H P).pageBreaks = [] := by
    rw [List.eq_nil_iff_forall_not_mem]
    intro b hb
    rcases (mem_calculatePageBreaks hP b).mp hb with ⟨-, hlt, -⟩
    have hnn : (0 : ℚ) ≤ (b.pageNumber : ℚ) * P :=
      mul_nonneg (by positivity) hP.le
    exact absurd (lt_of_le_of_lt hnn hlt) (not_lt.mpr hH)
  have htp : (calculatePageBreaks H P).totalPages = 1 := by
    show max 1 ⌈H / P⌉ = 1
    have hdiv : H / P ≤ 0 := div_nonpos_of_nonpos_of_nonneg hH hP.le
    have : ⌈H / P⌉ ≤ 0 := Int.ceil_le.mpr (by exact_mod_cast hdiv)
    omega
  have hsplit : calculatePageBreaks H P =
      ⟨(calculatePageBreaks H P).pageBreaks,
        (calculatePageBreaks H P).totalPages⟩ := rfl
  rw [hsplit, hne, htp]

/-! ### Claims C1, C2, C6 about the pagination engine -/

/-- C1: for every measured content height `H ≥ 0` and page content height
`P > 0`, the recomputation sets `totalPages = max(1, ⌈H / P⌉)`
(usePagination.ts line 49), and for `H = 0` it produces `totalPages = 1`
with an empty `pageBreaks` sequence. -/
theorem C1_totalPages_formula (H P : ℚ) (_hH : 0 ≤ H) (hP : 0 < P) :
    (calculatePageBreaks H P).totalPages = max 1 ⌈H / P⌉ ∧
      calculatePageBreaks 0 P = { pageBreaks := [], totalPages := 1 } :=
  ⟨rfl, calculatePageBreaks_of_nonpos hP le_rfl⟩

/-- Witness for C1 at `H = 2000`, `P = 864`. -/
theorem C1_totalPages_formula_witness :
    0 ≤ (2000 : ℚ) ∧ 0 < (864 : ℚ) ∧
      ((calculatePageBreaks 2000 864).totalPages = max 1 ⌈(2000 : ℚ) / 864⌉ ∧
        calculatePageBreaks 0 864 = { pageBreaks := [], totalPages := 1 }) :=
  ⟨by norm_num, by norm_num,
    C1_totalPages_formula 2000 864 (by norm_num) (by norm_num)⟩

/-- C2: the recomputed `pageBreaks` are exactly the entries
`{pageNumber := k, heightFromTop := k * P}` for the integers `k ≥ 1` with
`k * P < H` (first conjunct, a complete membership characterization),
strictly ascending in `heightFromTop` (second conjunct; with the first it
pins the list down uniquely), never at or beyond the measured height `H`
(third conjunct), and for `H` an exact multiple `k * P` no break exceeds
`(k - 1) * P` while the break at `(k - 1) * P` is present whenever `k ≥ 2`
(fourth and fifth conjuncts).  The output is a pure function of the current
`H` (the state is rebuilt from scratch by `calculatePageBreaks`), so a
recomputation after content shrinks cannot retain a stale trailing break:
the third conjunct bounds every emitted break by the current height. -/
theorem C2_pageBreaks_exact (H P : ℚ) (hP : 0 < P) :
    (∀ b : PageBreak,
        b ∈ (calculatePageBreaks H P).pageBreaks ↔
          1 ≤ b.pageNumber ∧ (b.pageNumber : ℚ) * P < H ∧
            b.heightFromTop = (b.pageNumber : ℚ) * P) ∧
      List.Chain' (fun a b : PageBreak => a.heightFromTop < b.heightFromTop)
        (calculatePageBreaks H P).pageBreaks ∧
      (∀ b ∈ (calculatePageBreaks H P).pageBreaks, b.heightFromTop < H) ∧
      (∀ k : ℕ, 1 ≤ k → H = (k : ℚ) * P →
        ∀ b ∈ (calculatePageBreaks H P).pageBreaks,
          b.heightFromTop ≤ ((k : ℚ) - 1) * P) ∧
      (∀ k : ℕ, 2 ≤ k → H = (k : ℚ) * P →
        ({ pageNumber := k - 1, heightFromTop := ((k : ℚ) - 1) * P } :
          PageBreak) ∈ (calculatePageBreaks H P).pageBreaks) := by
  refine ⟨mem_calculatePageBreaks hP, chain_breaksLoop hP _ _, ?_, ?_, ?_⟩
  · intro b hb
    rcases (mem_calculatePageBreaks hP b).mp hb with ⟨-, hlt, hht⟩
    rw [hht]; exact hlt
  · intro k hk hH b hb
    rcases (mem_calculatePageBreaks hP b).mp hb with ⟨-, hlt, hht⟩
    rw [hH] at hlt
    have hnk : b.pageNumber < k := by
      by_contra hle
      push_neg at hle
      have : (k : ℚ) * P ≤ (b.pageNumber : ℚ) * P :=
        mul_le_mul_of_nonneg_right (by exact_mod_cast hle) hP.le
      exact absurd (lt_of_le_of_lt this hlt) (lt_irrefl _)
    have hcast : (b.pageNumber : ℚ) ≤ (k : ℚ) - 1 := by
      have : (b.pageNumber : ℚ) + 1 ≤ (k : ℚ) := by exact_mod_cast hnk
      linarith
    rw [hht]
    exact mul_le_mul_of_nonneg_right hcast hP.le
  · intro k hk hH
    apply (mem_calculatePageBreaks hP _).mpr
    refine ⟨by show 1 ≤ k - 1; omega, ?_, ?_⟩
    · have hcast : ((k - 1 : ℕ) : ℚ) = (k : ℚ) - 1 := by
        have : (1 : ℕ) ≤ k := by omega
        push_cast [Nat.cast_sub this]
        ring
      rw [hcast, hH]
      have : (k : ℚ) - 1 < (k : ℚ) := by linarith
      exact mul_lt_mul_of_pos_right this hP
    · have hcast : ((k - 1 : ℕ) : ℚ) = (k : ℚ) - 1 := by
        have : (1 : ℕ) ≤ k := by omega
        push_cast [Nat.cast_sub this]
        ring
      rw [hcast]

/-- Witness for C2 at `H = 2000`, `P = 864`: the break `{2, 1728}` is
emitted (via the membership characterization). -/
theorem C2_pageBreaks_exact_witness :
    0 < (864 : ℚ) ∧
      ({ pageNumber := 2, heightFromTop := 1728 } : PageBreak) ∈
        (calculatePageBreaks 2000 864).pageBreaks :=
  ⟨by norm_num,
    ((C2_pageBreaks_exact 2000 864 (by norm_num)).1
      { pageNumber := 2, heightFromTop := 1728 }).mpr
      (by norm_num)⟩

/-- C6 counterexample: for an unmeasurable height (missing content element,
`contentRef.current === null`), the recomputation returns early and leaves
the previous state untouched (usePagination.ts line 29); when the previous
state is not the `H = 0` state, the resulting state differs from the state
produced for `H = 0`, contradicting the claim that an unmeasurable
measurement is treated as `0`. -/
theorem C6_counterexample :
    calcStep 864
        { pageBreaks := [{ pageNumber := 1, heightFromTop := 864 }],
          totalPages := 2 } none ≠
      calculatePageBreaks 0 864 := by
  rw [calculatePageBreaks_of_nonpos (by norm_num : (0:ℚ) < 864) le_rfl]
  decide

/-- C6 amended: a negative content height measurement is treated as 0 — the
recomputation never fails and produces the `H = 0` state (`totalPages = 1`,
empty `pageBreaks`); an unmeasurable measurement, however, leaves the
previous `PaginationState` unchanged (the recomputation returns early)
rather than resetting it to the `H = 0` state. -/
theorem C6_amended (P H : ℚ) (prev : PaginationState) (hP : 0 < P)
    (hH : H < 0) :
    calcStep P prev (some H) = { pageBreaks := [], totalPages := 1 } ∧
      calcStep P prev (some H) = calcStep P prev (some 0) ∧
      calcStep P prev none = prev := by
  have h1 : calcStep P prev (some H) = { pageBreaks := [], totalPages := 1 } :=
    calculatePageBreaks_of_nonpos hP hH.le
  have h2 : calcStep P prev (some 0) = { pageBreaks := [], totalPages := 1 } :=
    calculatePageBreaks_of_nonpos hP le_rfl
  exact ⟨h1, h1.trans h2.symm, rfl⟩

/-- Witness for C6 (amended) at `P = 864`, `H = -5`, a non-trivial previous
state. -/
theorem C6_amended_witness :
    0 < (864 : ℚ) ∧ (-5 : ℚ) < 0 ∧
      (calcStep 864
          { pageBreaks := [{ pageNumber := 1, heightFromTop := 864 }],
            totalPages := 2 } (some (-5)) =
          { pageBreaks := [], totalPages := 1 } ∧
        calcStep 864
            { pageBreaks := [{ pageNumber := 1, heightFromTop := 864 }],
              totalPages := 2 } (some (-5)) =
          calcStep 864
            { pageBreaks := [{ pageNumber := 1, heightFromTop := 864 }],
              totalPages := 2 } (some 0) ∧
        calcStep 864
            { pageBreaks := [{ pageNumber := 1, heightFromTop := 864 }],
              totalPages := 2 } none =
          { pageBreaks := [{ pageNumber := 1, heightFromTop := 864 }],
            totalPages := 2 }) :=
  ⟨by norm_num, by norm_num,
    C6_amended 864 (-5) _ (by norm_num) (by norm_num)⟩

/-! ### Debounced recalculation — `recalculate`, usePagination.ts lines 55-60

`recalculate` clears any pending timer (`clearTimeout`) and schedules
`calculatePageBreaks` 150 ms later (`setTimeout`).  The single-threaded
timer semantics is modelled on the time axis: given the ascending list of
trigger times, the timer armed at trigger `t` fires at `t + 150` unless a
later trigger arrives strictly before `t + 150` and cancels it (clearing an
already-fired timer is a no-op, so a successor trigger at or after `t + 150`
leaves the fire in place). -/

def DEBOUNCE_MS : ℚ := 150

/-- The instants at which the debounced `calculatePageBreaks` actually runs,
for an ascending list of trigger instants. -/
def fireTimes : List ℚ → List ℚ
  | [] => []
  | [t] => [t + DEBOUNCE_MS]
  | t :: t' :: rest =>
    (if t + DEBOUNCE_MS ≤ t' then [t + DEBOUNCE_MS] else []) ++
      fireTimes (t' :: rest)

/-- The sequence of recomputations the debounce produces: one
`calculatePageBreaks` per fire instant, reading the content height `h`
measured at that instant (`contentRef.current.scrollHeight` is read inside
the timer callback, line 58, not when the trigger arrives). -/
def debouncedRuns (h : ℚ → ℚ) (P : ℚ) (triggers : List ℚ) :
    List PaginationState :=
  (fireTimes triggers).map (fun t => calculatePageBreaks (h t) P)

/-- Every fire instant of a trigger sequence starting at `t` is at or after
`t + DEBOUNCE_MS`. -/
lemma fireTimes_lower_bound :
    ∀ (ts : List ℚ) (t : ℚ), List.Chain' (· ≤ ·) (t :: ts) →
      ∀ x ∈ fireTimes (t :: ts), t + DEBOUNCE_MS ≤ x := by
  intro ts
  induction ts with
  | nil =>
    intro t _ x hx
    simp only [fireTimes, List.mem_singleton] at hx
    exact le_of_eq hx.symm
  | cons t' rest ih =>
    intro t hchain x hx
    have hle : t ≤ t' := (List.chain'_cons.mp hchain).1
    have hchain' : List.Chain' (· ≤ ·) (t' :: rest) :=
      (List.chain'_cons.mp hchain).2
    simp only [fireTimes, List.mem_append] at hx
    rcases hx with hx | hx
    · rcases em (t + DEBOUNCE_MS ≤ t') with hc | hc
      · simp only [if_pos hc, List.mem_singleton] at hx
        exact le_of_eq hx.symm
      · simp [if_neg hc] at hx
    · have := ih t' hchain' x hx
      linarith

/-- Fire instants are strictly increasing: no run coincides with or precedes
an earlier one (runs never overlap). -/
lemma fireTimes_strict_chain :
    ∀ ts : List ℚ, List.Chain' (· ≤ ·) ts →
      List.Chain' (· < ·) (fireTimes ts) := by
  intro ts
  induction ts with
  | nil => intro _; simp [fireTimes]
  | cons t rest ih =>
    intro hchain
    cases rest with
    | nil => simp [fireTimes]
    | cons t' rest' =>
      have hle : t ≤ t' := (List.chain'_cons.mp hchain).1
      have hchain' : List.Chain' (· ≤ ·) (t' :: rest') :=
        (List.chain'_cons.mp hchain).2
      have htail := ih hchain'
      show List.Chain' (· < ·)
        ((if t + DEBOUNCE_MS ≤ t' then [t + DEBOUNCE_MS] else []) ++
          fireTimes (t' :: rest'))
      rcases em (t + DEBOUNCE_MS ≤ t') with hc | hc
      · rw [if_pos hc]
        rw [List.singleton_append, List.chain'_cons']
        refine ⟨?_, htail⟩
        intro y hy
        have hmem : y ∈ fireTimes (t' :: rest') :=
          List.mem_of_mem_head? hy
        have hlb := fireTimes_lower_bound rest' t' hchain' y hmem
        have hpos : (0 : ℚ) < DEBOUNCE_MS := by norm_num [DEBOUNCE_MS]
        linarith
      · rw [if_neg hc, List.nil_append]
        exact htail

/-- Each trigger causes at most one run. -/
lemma fireTimes_length_le :
    ∀ ts : List ℚ, (fireTimes ts).length ≤ ts.length := by
  intro ts
  induction ts with
  | nil => simp [fireTimes]
  | cons t rest ih =>
    cases rest with
    | nil => simp [fireTimes]
    | cons t' rest' =>
      show ((if t + DEBOUNCE_MS ≤ t' then [t + DEBOUNCE_MS] else []) ++
          fireTimes (t' :: rest')).length ≤ (t :: t' :: rest').length
      rcases em (t + DEBOUNCE_MS ≤ t') with hc | hc
      · rw [if_pos hc]
        simp only [List.length_append, List.length_singleton, List.length_cons,
          List.length_nil]
        have := ih
        simp only [List.length_cons] at this
        omega
      · rw [if_neg hc, List.nil_append]
        have := ih
        simp only [List.length_cons] at this ⊢
        omega

/-- C9: triggers are coalesced through a single 150 ms debounce window.  Two
consecutive triggers within 150 ms of each other produce exactly one
recomputation, which runs when the second trigger's window elapses and uses
the height measured at that instant; in general fires are strictly ordered
(a pending computation never runs twice and never overlaps another) and
each trigger causes at most one run. -/
theorem C9_debounce_coalesces (t₁ t₂ : ℚ) (h : ℚ → ℚ) (P : ℚ)
    (_h12 : t₁ ≤ t₂) (hwin : t₂ < t₁ + DEBOUNCE_MS) :
    fireTimes [t₁, t₂] = [t₂ + DEBOUNCE_MS] ∧
      debouncedRuns h P [t₁, t₂] =
        [calculatePageBreaks (h (t₂ + DEBOUNCE_MS)) P] ∧
      (∀ ts : List ℚ, List.Chain' (· ≤ ·) ts →
        List.Chain' (· < ·) (fireTimes ts)) ∧
      (∀ ts : List ℚ, (fireTimes ts).length ≤ ts.length) := by
  have hfire : fireTimes [t₁, t₂] = [t₂ + DEBOUNCE_MS] := by
    show (if t₁ + DEBOUNCE_MS ≤ t₂ then [t₁ + DEBOUNCE_MS] else []) ++
        fireTimes [t₂] = [t₂ + DEBOUNCE_MS]
    rw [if_neg (by linarith), List.nil_append]
    rfl
  refine ⟨hfire, ?_, fireTimes_strict_chain, fireTimes_length_le⟩
  rw [debouncedRuns, hfire]
  rfl

/-- Witness for C9 at `t₁ = 0`, `t₂ = 100` (100 ms apart, within the 150 ms
window): one single run at `t = 250`. -/
theorem C9_debounce_coalesces_witness :
    (0 : ℚ) ≤ 100 ∧ (100 : ℚ) < 0 + DEBOUNCE_MS ∧
      (fireTimes [0, 100] = [100 + DEBOUNCE_MS] ∧
        debouncedRuns (fun _ => 2000) 864 [0, 100] =
          [calculatePageBreaks ((fun _ : ℚ => (2000 : ℚ)) (100 + DEBOUNCE_MS))
            864] ∧
        (∀ ts : List ℚ, List.Chain' (· ≤ ·) ts →
          List.Chain' (· < ·) (fireTimes ts)) ∧
        (∀ ts : List ℚ, (fireTimes ts).length ≤ ts.length)) :=
  ⟨by norm_num, by norm_num [DEBOUNCE_MS],
    C9_debounce_coalesces 0 100 (fun _ => 2000) 864 (by norm_num)
      (by norm_num [DEBOUNCE_MS])⟩

/-! ### PageChromeRenderer — PageBreakVisualizer.tsx -/

/-- `const PAGE_GAP_PX = 28` (PageBreakVisualizer.tsx line 507): the fixed
inter-page visual gap `G`. -/
def PAGE_GAP_PX : ℚ := 28

/-- One page background rectangle (paged space). -/
structure PageBgRect where
  width : ℚ
  height : ℚ
  top : ℚ
deriving DecidableEq

/-- The page 'paper' backgrounds of PageBreakVisualizer.tsx lines 518-534:
one rectangle per index `i` of `Array.from({length: Math.max(1, totalPages)})`,
with `width = contentWidthPx`, `height = contentHeightPx`, and
`top = i * (contentHeightPx + PAGE_GAP_PX)`. -/
def pageBackgrounds (contentWidthPx contentHeightPx : ℚ) (totalPages : ℤ) :
    List PageBgRect :=
  (List.range (max 1 totalPages).toNat).map
    (fun (i : ℕ) =>
      { width := contentWidthPx
        height := contentHeightPx
        top := (i : ℚ) * (contentHeightPx + PAGE_GAP_PX) })

/-- One page-break indicator line (flow space). -/
structure BreakMarker where
  top : ℚ
  label : String
deriving DecidableEq

/-- The page-break indicator lines of PageBreakVisualizer.tsx lines 602-624:
for each `PageBreak`, an overlay at `top = heightFromTop + marginPx` in the
continuous content coordinate space, labeled `Page {pageNumber}`. -/
def breakMarkers (marginPx : ℚ) (breaks : List PageBreak) : List BreakMarker :=
  breaks.map
    (fun b =>
      { top := b.heightFromTop + marginPx
        label := "Page " ++ toString b.pageNumber })

/-- C8: for every page index `i` in `[0, totalPages)` the chrome renderer
places the `i`-th page background rectangle with width `contentWidthPx`,
height `contentHeightPx` and top offset `i * (contentHeightPx + G)` in paged
space (`G = PAGE_GAP_PX`), and for every `PageBreak` in `pageBreaks` the
marker at the break's position in the list sits at
`heightFromTop + marginPx` in the continuous content coordinate space,
labeled with that break's `pageNumber`. -/
theorem C8_chrome_layout (CW CH marginPx : ℚ) (tp : ℤ)
    (breaks : List PageBreak) (htp : 1 ≤ tp) :
    (∀ i : ℕ, (i : ℤ) < tp →
      (pageBackgrounds CW CH tp)[i]? =
        some { width := CW, height := CH,
               top := (i : ℚ) * (CH + PAGE_GAP_PX) }) ∧
      (∀ (j : ℕ) (b : PageBreak), breaks[j]? = some b →
        (breakMarkers marginPx breaks)[j]? =
          some { top := b.heightFromTop + marginPx,
                 label := "Page " ++ toString b.pageNumber }) := by
  constructor
  · intro i hi
    have hi' : i < (max 1 tp).toNat := by omega
    rw [pageBackgrounds, List.getElem?_map, List.getElem?_range hi',
      Option.map_some']
  · intro j b hj
    simp [breakMarkers, List.getElem?_map, hj]

/-- Witness for C8: three pages, index 2; marker of the break `{2, 1728}` at
list position 1 with `marginPx = 96`. -/
theorem C8_chrome_layout_witness :
    (1 : ℤ) ≤ 3 ∧
      (pageBackgrounds 624 864 3)[2]? =
        some { width := 624, height := 864,
               top := ((2 : ℕ) : ℚ) * (864 + PAGE_GAP_PX) } ∧
      (breakMarkers 96 [{ pageNumber := 1, heightFromTop := 864 },
          { pageNumber := 2, heightFromTop := 1728 }])[1]? =
        some { top := (1728 : ℚ) + 96, label := "Page " ++ toString (2 : ℕ) } :=
  ⟨by norm_num,
    (C8_chrome_layout 624 864 96 3 [⟨1, 864⟩, ⟨2, 1728⟩] (by norm_num)).1 2
      (by norm_num),
    (C8_chrome_layout 624 864 96 3 [⟨1, 864⟩, ⟨2, 1728⟩] (by norm_num)).2 1
      ⟨2, 1728⟩ rfl⟩

/-! ### ExportPipeline — `exportToPDF`, DocumentEditor.tsx lines 133-175 -/

/-- The pixel buffer produced by the rasterization service
(`html2canvas`). -/
structure Canvas where
  width : ℚ
  height : ℚ
deriving DecidableEq

/-- One iteration of the export loop: the per-page `pageCanvas` buffer and
the rectangle it is drawn into in the PDF. -/
structure PageSlice where
  /-- `pageCanvas.width = pageWidthPx` (line 158). -/
  bufWidth : ℚ
  /-- `pageCanvas.height = Math.min(pageHeightPx, totalHeight - sy)`
  (line 159): the buffer is cropped to the remaining strip, not padded. -/
  bufHeight : ℚ
  /-- `sy = i * pageHeightPx` (line 155). -/
  srcY : ℚ
  /-- `pdf.addImage(..., 0, 0, CONTENT_WIDTH_PX, CONTENT_HEIGHT_PX)`
  (line 168) draws the whole buffer into a rectangle of this width… -/
  pdfWidth : ℚ
  /-- …and this height, regardless of the buffer's own aspect ratio. -/
  pdfHeight : ℚ
deriving DecidableEq

/-- The export loop of DocumentEditor.tsx lines 145-169:
`pageWidthPx = CONTENT_WIDTH_PX * scale`, `pageHeightPx =
CONTENT_HEIGHT_PX * scale`, `totalPagesPdf = Math.ceil(totalHeight /
pageHeightPx)`, and for each `i` a `pageCanvas` of width `pageWidthPx` and
height `min(pageHeightPx, totalHeight - sy)` (white-filled, then the strip
at `sy` copied 1:1 by `drawImage`), added to the PDF at the full page size
`CONTENT_WIDTH_PX × CONTENT_HEIGHT_PX`. -/
def exportSlices (contentWidthPx contentHeightPx scale : ℚ)
    (canvas : Canvas) : List PageSlice :=
  let pageWidthPx := contentWidthPx * scale
  let pageHeightPx := contentHeightPx * scale
  let totalHeight := canvas.height
  let totalPagesPdf := ⌈totalHeight / pageHeightPx⌉
  (List.range totalPagesPdf.toNat).map
    (fun (i : ℕ) =>
      let sy := (i : ℚ) * pageHeightPx
      { bufWidth := pageWidthPx
        bufHeight := min pageHeightPx (totalHeight - sy)
        srcY := sy
        pdfWidth := contentWidthPx
        pdfHeight := contentHeightPx })

/-- Page count of the saved PDF document: `new jsPDF(...)` (line 151)
creates a document that already has one page, and `pdf.addPage()` is called
for every loop index `i > 0` (line 167), so the saved document has
`max 1 totalPagesPdf` pages. -/
def pdfPageCount (slices : List PageSlice) : ℤ :=
  max 1 (slices.length : ℤ)

/-- `const scale = 2` (DocumentEditor.tsx line 142). -/
def exportScale : ℚ := 2

/-- Observable outcome of one `exportToPDF` call. -/
structure ExportOutcome where
  /-- `element.style.background` when the call finishes (or throws). -/
  background : String
  slices : List PageSlice
  /-- whether `pdf.save('document.pdf')` (line 174) ran. -/
  saved : Bool
  /-- whether the call finished with a rejected promise. -/
  failed : Bool
deriving DecidableEq

/-- `exportToPDF` (DocumentEditor.tsx lines 133-175).  The element's
background is set to `'#ffffff'` (line 139) *before* the awaited capture
(line 143).  `capture = none` models a rejected `html2canvas` promise: the
exception propagates out of the async function immediately, so neither the
page loop, nor `pdf.save`, nor the background restore on line 172 runs —
there is no try/finally.  On success the loop produces the slices, the
background is restored to its previous value and the document is saved. -/
def exportToPDF (prevBg : String) (contentWidthPx contentHeightPx : ℚ)
    (capture : Option Canvas) : ExportOutcome :=
  match capture with
  | none =>
    { background := "#ffffff", slices := [], saved := false, failed := true }
  | some canvas =>
    { background := prevBg
      slices := exportSlices contentWidthPx contentHeightPx exportScale canvas
      saved := true
      failed := false }

lemma exportSlices_length (CW CH s : ℚ) (c : Canvas) :
    (exportSlices CW CH s c).length = ⌈c.height / (CH * s)⌉.toNat := by
  simp [exportSlices]

lemma exportSlices_getElem (CW CH s : ℚ) (c : Canvas) (i : ℕ)
    (hi : i < ⌈c.height / (CH * s)⌉.toNat) :
    (exportSlices CW CH s c)[i]? =
      some { bufWidth := CW * s
             bufHeight := min (CH * s) (c.height - (i : ℚ) * (CH * s))
             srcY := (i : ℚ) * (CH * s)
             pdfWidth := CW
             pdfHeight := CH } := by
  simp only [exportSlices]
  rw [List.getElem?_map, List.getElem?_range hi, Option.map_some']

/-- C3 (theorem at the failing input): exporting a source image of height
`CONTENT_HEIGHT_PX * scale * 2.5` (canvas `1248 × 4320` at scale 2)
produces 3 slices, but the third page buffer is only `864` device pixels
tall — the leftover strip height, strictly less than the full scaled page
height `CONTENT_HEIGHT_PX * 2 = 1728` — while being drawn into the full
`624 × 864`-unit PDF page (`pdfHeight = CONTENT_HEIGHT_PX`), i.e. the final
partial page is vertically stretched, not placed at the top of a full-size
background-filled canvas as the claim states. -/
theorem C3_export_stretches_final_page :
    (exportSlices CONTENT_WIDTH_PX CONTENT_HEIGHT_PX 2
        { width := 1248, height := 4320 }).length = 3 ∧
      (exportSlices CONTENT_WIDTH_PX CONTENT_HEIGHT_PX 2
          { width := 1248, height := 4320 })[2]? =
        some { bufWidth := 1248, bufHeight := 864, srcY := 3456,
               pdfWidth := 624, pdfHeight := 864 } ∧
      (864 : ℚ) < CONTENT_HEIGHT_PX * 2 := by
  have hceil :
      ⌈({ width := 1248, height := 4320 } : Canvas).height /
        (CONTENT_HEIGHT_PX * 2)⌉ = 3 := by
    show ⌈(4320 : ℚ) / (CONTENT_HEIGHT_PX * 2)⌉ = 3
    rw [CONTENT_HEIGHT_PX_eq, Int.ceil_eq_iff]
    norm_num
  refine ⟨?_, ?_, ?_⟩
  · rw [exportSlices_length, hceil]
    rfl
  · rw [exportSlices_getElem CONTENT_WIDTH_PX CONTENT_HEIGHT_PX 2
      { width := 1248, height := 4320 } 2 (by rw [hceil]; norm_num)]
    rw [CONTENT_WIDTH_PX_eq, CONTENT_HEIGHT_PX_eq]
    norm_num
  · rw [CONTENT_HEIGHT_PX_eq]
    norm_num

/-- C4: for unchanged content — a captured image whose height is
`H * scaleFactor` — the page count of the saved PDF equals the live
`totalPages` computed by the pagination engine for the same `H` and
`contentHeightPx`, for every positive scale factor (the scale cancels in
`⌈(H * s) / (CH * s)⌉`, and the jsPDF document starts with one page, so the
empty-content export also yields the one page the live engine reports). -/
theorem C4_export_count_matches_live (H s CH CW : ℚ) (hH : 0 ≤ H)
    (hs : 0 < s) (hCH : 0 < CH) :
    pdfPageCount (exportSlices CW CH s { width := CW * s, height := H * s }) =
      (calculatePageBreaks H CH).totalPages := by
  rw [pdfPageCount, exportSlices_length]
  show max 1 ((⌈(H * s) / (CH * s)⌉.toNat : ℤ)) = max 1 ⌈H / CH⌉
  rw [mul_div_mul_right H CH (ne_of_gt hs)]
  have hnn : 0 ≤ ⌈H / CH⌉ := Int.ceil_nonneg (div_nonneg hH hCH.le)
  omega

/-- Witness for C4 at `H = 2000`, `s = 2`, `CH = 864`, `CW = 624`. -/
theorem C4_export_count_matches_live_witness :
    0 ≤ (2000 : ℚ) ∧ 0 < (2 : ℚ) ∧ 0 < (864 : ℚ) ∧
      pdfPageCount (exportSlices 624 864 2
          { width := 624 * 2, height := 2000 * 2 }) =
        (calculatePageBreaks 2000 864).totalPages :=
  ⟨by norm_num, by norm_num, by norm_num,
    C4_export_count_matches_live 2000 2 864 624 (by norm_num) (by norm_num)
      (by norm_num)⟩

/-- C7 counterexample: on the capture-failure path the content element's
background is *not* restored to its pre-export value — the restore on
line 172 is only reached on success, so after a failed export the
background remains the temporary `'#ffffff'` override instead of the
previous value (here `'blue'`), contradicting the claim that every
observable state touched by the export is restored on the error path. -/
theorem C7_counterexample :
    (exportToPDF "blue" CONTENT_WIDTH_PX CONTENT_HEIGHT_PX none).background ≠
        "blue" ∧
      (exportToPDF "blue" CONTENT_WIDTH_PX CONTENT_HEIGHT_PX none).failed =
        true :=
  ⟨by decide, rfl⟩

/-- C7 amended: if image capture fails during export, no output pages are
produced, nothing is saved (no partial document is materialized), and the
failure is reported (the promise rejects); the live pagination state is
untouched (`exportToPDF` neither reads nor writes the `PaginationState`);
but the content element's background override is NOT restored on the error
path — it is left at `'#ffffff'`, and is restored to its previous value
only on the success path. -/
theorem C7_amended (prevBg : String) (CW CH : ℚ) (c : Canvas) :
    (exportToPDF prevBg CW CH none).slices = [] ∧
      (exportToPDF prevBg CW CH none).saved = false ∧
      (exportToPDF prevBg CW CH none).failed = true ∧
      (exportToPDF prevBg CW CH none).background = "#ffffff" ∧
      (exportToPDF prevBg CW CH (some c)).background = prevBg :=
  ⟨rfl, rfl, rfl, rfl, rfl⟩

/-! ### Footer rendering — PageBreakVisualizer.tsx lines 555-573 -/

/-- `startsWithL pat s`: whether `pat` occurs at the very start of `s`. -/
def startsWithL : List Char → List Char → Bool
  | [], _ => true
  | _ :: _, [] => false
  | p :: ps, c :: cs => p == c && startsWithL ps cs

/-- JavaScript `String.prototype.replace` with a *string* pattern, on
character lists: only the first (leftmost) occurrence of `pat` is replaced
by `rep`; if `pat` does not occur the string is returned unchanged.  (At
the call site the replacement is `String(i + 1)`, a digit string, so the
JavaScript `$`-pattern substitution in the replacement is inert and plain
splicing is faithful.) -/
def replaceFirstL (pat rep : List Char) : List Char → List Char
  | [] => if startsWithL pat [] then rep else []
  | c :: cs =>
    if startsWithL pat (c :: cs) then rep ++ (c :: cs).drop pat.length
    else c :: replaceFirstL pat rep cs

/-- `String`-level wrapper for `replaceFirstL`, argument order as in
JavaScript `s.replace(pat, rep)`. -/
def replaceFirstStr (s pat rep : String) : String :=
  ⟨replaceFirstL pat.data rep.data s.data⟩

/-- The footer of PageBreakVisualizer.tsx lines 570-572 for page index `i`:
`footerText ? footerText.replace('{page}', String(i + 1)) :
(showPageNumbers ? `Page ${i + 1}` : '')` — the empty string is falsy, so a
non-empty template always wins over the automatic page-number fallback. -/
def renderFooter (footerText : String) (showPageNumbers : Bool) (i : ℕ) :
    String :=
  if footerText ≠ "" then replaceFirstStr footerText "{page}" (toString (i + 1))
  else if showPageNumbers then "Page " ++ toString (i + 1)
  else ""

/-- Index of the first occurrence of `pat` in `s`, by scanning candidate
start positions left to right. -/
def findIdxL (pat s : List Char) : Option ℕ :=
  (List.range (s.length + 1)).find? (fun k => startsWithL pat (s.drop k))

/-- Replacement of the first occurrence expressed by splicing at the first
match index. -/
def spliceAtFirst (pat rep s : List Char) : List Char :=
  match findIdxL pat s with
  | none => s
  | some k => s.take k ++ rep ++ s.drop (k + pat.length)

/-- The spec's wording of the footer contract (§4.3): if `footerTemplate`
is non-empty, render it with the literal substring `{page}` replaced by the
decimal `i + 1`; otherwise, if `showPageNumbers` is true, render
`Page {i+1}`; otherwise render nothing — with the replacement expressed as
an explicit splice at the first match position. -/
def renderFooterSpec (footerText : String) (showPageNumbers : Bool) (i : ℕ) :
    String :=
  if footerText ≠ "" then
    ⟨spliceAtFirst ("{page}" : String).data (toString (i + 1)).data
      footerText.data⟩
  else if showPageNumbers then "Page " ++ toString (i + 1)
  else ""

lemma findIdxL_nil (pat : List Char) :
    findIdxL pat [] = if startsWithL pat [] then some 0 else none := by
  cases h : startsWithL pat [] with
  | true => simp [findIdxL, List.find?, List.range_succ, h]
  | false => simp [findIdxL, List.find?, List.range_succ, h]

lemma findIdxL_cons (pat : List Char) (c : Char) (cs : List Char) :
    findIdxL pat (c :: cs) =
      if startsWithL pat (c :: cs) then some 0
      else (findIdxL pat cs).map Nat.succ := by
  rw [findIdxL, List.length_cons, List.range_succ_eq_map, List.find?]
  have hpred :
      ((fun k => startsWithL pat (List.drop k (c :: cs))) ∘ Nat.succ) =
        (fun k => startsWithL pat (List.drop k cs)) := by
    funext k
    rfl
  rw [List.find?_map, hpred]
  simp only [List.drop_zero]
  cases h : startsWithL pat (c :: cs) with
  | true => simp [h]
  | false => simp [h, findIdxL]

/-- The source's recursive first-occurrence replacement agrees with the
spec's splice-at-first-match formulation. -/
lemma replaceFirstL_eq_spliceAtFirst (pat rep : List Char) :
    ∀ s : List Char, replaceFirstL pat rep s = spliceAtFirst pat rep s := by
  intro s
  induction s with
  | nil =>
    rw [replaceFirstL, spliceAtFirst, findIdxL_nil]
    rcases em (startsWithL pat ([] : List Char) = true) with hc | hc
    · simp [hc]
    · simp [Bool.of_not_eq_true hc]
  | cons c cs ih =>
    rw [replaceFirstL, spliceAtFirst, findIdxL_cons]
    rcases em (startsWithL pat (c :: cs) = true) with hc | hc
    · simp [hc]
    · rw [ih, spliceAtFirst]
      simp only [Bool.of_not_eq_true hc, Bool.false_eq_true, if_false]
      cases hfind : findIdxL pat cs with
      | none => simp
      | some k =>
        simp only [Option.map_some']
        rw [Nat.succ_add, List.drop_succ_cons]
        simp

/-- C5: the rendered footer is exactly one of three outcomes, with a
non-empty template taking precedence: the source footer expression
(`renderFooter`) coincides with the spec's formulation
(`renderFooterSpec`) on every configuration and page index, and the spec's
concrete examples hold: template `"Page {page} of N"` on 0-based page
index 2 renders `"Page 3 of N"`; the empty template renders `"Page 1"` on
page index 0 when `showPageNumbers` is true and the empty string when it is
false. -/
theorem C5_footer_trichotomy :
    (∀ (footerText : String) (showPageNumbers : Bool) (i : ℕ),
        renderFooter footerText showPageNumbers i =
          renderFooterSpec footerText showPageNumbers i) ∧
      renderFooter "Page {page} of N" true 2 = "Page 3 of N" ∧
      renderFooter "" true 0 = "Page 1" ∧
      renderFooter "" false 0 = "" := by
  refine ⟨?_, by decide, by decide, by decide⟩
  intro footerText showPageNumbers i
  rw [renderFooter, renderFooterSpec]
  rcases em (footerText ≠ "") with hc | hc
  · rw [if_pos hc, if_pos hc, replaceFirstStr,
      replaceFirstL_eq_spliceAtFirst]
  · rw [if_neg hc, if_neg hc]

lemma startsWithL_append_self (pat : List Char) :
    ∀ s : List Char, startsWithL pat (pat ++ s) = true := by
  induction pat with
  | nil => intro s; rfl
  | cons p ps ih =>
    intro s
    show (p == p && startsWithL ps (ps ++ s)) = true
    rw [ih s]
    simp

/-- Replacing the first occurrence in a string that begins with the pattern
rewrites exactly that leading occurrence and leaves the rest — including
any later occurrence of the pattern — untouched. -/
lemma replaceFirstL_append_self (pat rep : List Char) (s : List Char) :
    replaceFirstL pat rep (pat ++ s) = rep ++ s := by
  cases hp : pat with
  | nil =>
    cases s with
    | nil => simp [replaceFirstL, startsWithL]
    | cons c cs => simp [replaceFirstL, startsWithL]
  | cons p ps =>
    rw [← hp]
    have hne : ∃ c cs, pat ++ s = c :: cs := by
      rw [hp]; exact ⟨p, ps ++ s, rfl⟩
    rcases hne with ⟨c, cs, hcons⟩
    rw [hcons, replaceFirstL, ← hcons, if_pos (startsWithL_append_self pat s),
      List.drop_left]

/-- C10: when the footer template contains `{page}` more than once, only
the first (leftmost) occurrence is replaced by the page number; every later
occurrence is rendered literally on every page.  Stated for an arbitrary
template whose first occurrence starts the string (`"{page}" ++ mid ++
"{page}" ++ post`, for any `mid` and `post`): the leading occurrence
becomes the decimal page number and the second `{page}` survives verbatim;
plus the concrete instance `"p. {page}/{page}"` on page index 0. -/
theorem C10_first_occurrence_only (mid post : String) (sp : Bool) (i : ℕ) :
    renderFooter ("{page}" ++ mid ++ "{page}" ++ post) sp i =
      toString (i + 1) ++ mid ++ "{page}" ++ post ∧
      renderFooter "p. {page}/{page}" true 0 = "p. 1/{page}" := by
  constructor
  · have h6 : ("{page}" : String).data = ['{', 'p', 'a', 'g', 'e', '}'] := rfl
    have hne : ("{page}" ++ mid ++ "{page}" ++ post : String) ≠ "" := by
      intro h
      have hd := congrArg String.data h
      rw [String.data_append, String.data_append, String.data_append, h6]
        at hd
      simp at hd
    rw [renderFooter, if_pos hne]
    apply String.ext
    show replaceFirstL ("{page}" : String).data (toString (i + 1)).data
        ("{page}" ++ mid ++ "{page}" ++ post : String).data =
      (toString (i + 1) ++ mid ++ "{page}" ++ post : String).data
    rw [String.data_append, String.data_append, String.data_append,
      String.data_append, String.data_append, String.data_append,
      List.append_assoc, List.append_assoc, List.append_assoc,
      List.append_assoc]
    exact replaceFirstL_append_self _ _ _
  · decide

end DocPagination
